import Mathlib

/-!
Verification of the mdscrape admission-control and retry subsystem.

The definitions below are a shallow embedding of the Rust sources:
`src/retry.rs` (error taxonomy, `is_permanent`, `with_retry`),
`src/throttle.rs` (the Ticketer: semaphore budgets, origin lockouts),
`src/context.rs` (`from_args` policy construction, `with_retry_for_origin`)
and the fan-out loops of `src/title.rs` / `src/chapter.rs`.

Async Rust is embedded as follows: the retry loop becomes a fuel-indexed
recursion over a stream of per-attempt outcomes; the Ticketer becomes a
small-step transition system whose micro-steps match the await points of
`get_ticket` / `mark_origin_locked`, with `tokio::time::Instant` modelled
as a natural-number clock; futures that suspend become steps whose guard
is the condition under which the runtime would resume them.
-/

namespace Mdscrape

/-- Shallow model of `reqwest::Error`: the only observations `retry.rs`
makes of it are `status()`, `is_builder()` and `is_status()`, so the model
keeps just the kind of error (builder error, status error with its code,
or any other kind such as connect/timeout/body). -/
inductive ReqErrorKind : Type
  | builder : ReqErrorKind
  | status (code : Nat) : ReqErrorKind
  | other : ReqErrorKind
  deriving DecidableEq, Repr

/-- Model of a `reqwest::Error` value. -/
structure ReqError : Type where
  kind : ReqErrorKind
  deriving DecidableEq, Repr

/-- `reqwest::Error::status()`: the HTTP status code, for status errors. -/
def ReqError.statusCode : ReqError → Option Nat
  | ⟨.status c⟩ => some c
  | _ => none

/-- `reqwest::Error::is_builder()`. -/
def ReqError.is_builder : ReqError → Bool
  | ⟨.builder⟩ => true
  | _ => false

/-- `reqwest::Error::is_status()`. -/
def ReqError.is_status : ReqError → Bool
  | ⟨.status _⟩ => true
  | _ => false

/-- `MANGADEX_RATE_LIMIT_CODE` from `src/retry.rs`. -/
def MANGADEX_RATE_LIMIT_CODE : Nat := 429

/-- `DownloadError` from `src/retry.rs`. The payloads of `IOError` and
`ParseError` are never inspected by the retry logic, so they are dropped;
chapter ids (`usize`) become `Nat`. -/
inductive DownloadError : Type
  | IOError : DownloadError
  | NoSuchChapter (id : Nat) : DownloadError
  | ChapterIsWrongLanguage (id : Nat) : DownloadError
  | ParseError : DownloadError
  | ReqwestError (e : ReqError) : DownloadError
  | RateLimitError (e : ReqError) : DownloadError
  deriving DecidableEq, Repr

/-- `impl From<reqwest::Error> for DownloadError` from `src/retry.rs`:
status 429 becomes `RateLimitError`, everything else `ReqwestError`. -/
def DownloadError.fromReqwest (e : ReqError) : DownloadError :=
  if e.statusCode = some MANGADEX_RATE_LIMIT_CODE then .RateLimitError e
  else .ReqwestError e

/-- `MaybePermanentError::is_permanent` for `DownloadError`
(`src/retry.rs` lines 62-73). -/
def DownloadError.is_permanent : DownloadError → Bool
  | .IOError => true
  | .ParseError => true
  | .NoSuchChapter _ => true
  | .ChapterIsWrongLanguage _ => true
  | .RateLimitError _ => false
  | .ReqwestError e => e.is_builder || e.is_status

/-- Whether the error is matched by the `Err(DownloadError::RateLimitError(_))`
arm of `with_retry`. -/
def DownloadError.isRateLimit : DownloadError → Bool
  | .RateLimitError _ => true
  | _ => false

/-- One attempt's result, `Result<T>` in `src/retry.rs`. -/
inductive Outcome (T : Type) : Type
  | ok (v : T) : Outcome T
  | err (e : DownloadError) : Outcome T
  deriving DecidableEq, Repr

/-- Whether an outcome is a transient failure: an error that is neither
rate-limited nor permanent (the last arm of the `match` in `with_retry`). -/
def Outcome.isTransientFailure {T : Type} : Outcome T → Bool
  | .ok _ => false
  | .err e => !e.isRateLimit && !e.is_permanent

/-- Instrumented result of a terminated `with_retry` run: the returned
`Result`, how many times the operation was invoked, how many times the
`wait` callback ran (once per rate-limited attempt) and how many backoff
sleeps happened (once per transient retry granted). -/
structure RetryResult (T : Type) : Type where
  result : Outcome T
  invocations : Nat
  waits : Nat
  sleeps : Nat
  deriving DecidableEq, Repr

/-- A fuel-indexed run of `with_retry`'s loop: `done` when the Rust loop
returns, `fuelOut` with the counters accumulated so far when the given
number of iterations did not suffice (the Rust loop would keep running). -/
inductive RetryOut (T : Type) : Type
  | done (r : RetryResult T) : RetryOut T
  | fuelOut (invocations waits sleeps : Nat) : RetryOut T
  deriving DecidableEq, Repr

/-- The loop of `with_retry` (`src/retry.rs` lines 84-99). `f i` is the
outcome of the `i`-th invocation of the operation (0-based); `count` is the
Rust `count` variable before the iteration's `count += 1`, which also equals
the number of invocations made so far. One unit of fuel is one iteration. -/
def withRetryGo {T : Type} (f : Nat → Outcome T) :
    Nat → Nat → Nat → Nat → RetryOut T
  | 0, count, waits, sleeps => .fuelOut count waits sleeps
  | fuel + 1, count, waits, sleeps =>
    let c := count + 1
    match f count with
    | .ok v => .done ⟨.ok v, c, waits, sleeps⟩
    | .err (.RateLimitError _) => withRetryGo f fuel c (waits + 1) sleeps
    | .err e =>
      if e.is_permanent then .done ⟨.err e, c, waits, sleeps⟩
      else if c < 4 then withRetryGo f fuel c waits (sleeps + 1)
      else .done ⟨.err e, c, waits, sleeps⟩

/-- `with_retry` from `src/retry.rs`: run the loop from its initial state
(`count = 0`, no waits, no sleeps). -/
def with_retry {T : Type} (f : Nat → Outcome T) (fuel : Nat) : RetryOut T :=
  withRetryGo f fuel 0 0 0

/-- Number of rate-limited outcomes among `f a, f (a+1), ..., f (a+n-1)`. -/
def rlBetween {T : Type} (f : Nat → Outcome T) (a : Nat) : Nat → Nat
  | 0 => 0
  | n + 1 =>
    (match f a with | .err (.RateLimitError _) => 1 | _ => 0)
      + rlBetween f (a + 1) n

/-- The classification of errors that claim C7 describes, written from the
spec's words: permanent exactly for storage, parse, not-found and
wrong-language conditions, builder errors, and HTTP status errors in the
4xx class other than 429; no other status class permanent. -/
def claimPermanentC7 : DownloadError → Bool
  | .IOError => true
  | .ParseError => true
  | .NoSuchChapter _ => true
  | .ChapterIsWrongLanguage _ => true
  | .RateLimitError _ => false
  | .ReqwestError e =>
    e.is_builder ||
      (match e.statusCode with
       | some c => decide (400 ≤ c) && decide (c < 500) && decide (c ≠ 429)
       | none => false)

/-- Origin keys (`url::Origin` in the sources) are only hashed and compared,
so they are modelled as naturals. -/
abbrev OriginKey := Nat

/-- `TicketPolicy` from `src/throttle.rs` lines 14-19. Durations are modelled
as naturals (abstract clock units). -/
structure TicketPolicy : Type where
  max_global : Nat
  max_per_site : Nat
  rate_limit_wait_time : Nat
  deriving DecidableEq, Repr

/-- `TicketPartition` from `src/throttle.rs`: the per-origin semaphore is
modelled by its number of available permits; `locked_till` is the optional
lockout deadline. The `policy` field is dropped (it is a shared copy of the
ticketer's policy). -/
structure TicketPartition : Type where
  availLocal : Nat
  locked_till : Option Nat
  deriving DecidableEq, Repr

/-- First-match lookup in the association list modelling the
`HashMap<Origin, TicketPartition>`. -/
def lookupPart : List (OriginKey × TicketPartition) → OriginKey → Option TicketPartition
  | [], _ => none
  | (o', p) :: r, o => if o' = o then some p else lookupPart r o

/-- Replace the entry for `o` (or append it if absent), as `HashMap` insert /
`get_mut` assignment does. -/
def writePart : List (OriginKey × TicketPartition) → OriginKey → TicketPartition →
    List (OriginKey × TicketPartition)
  | [], o, p => [(o, p)]
  | (o', p') :: r, o, p =>
    if o' = o then (o, p) :: r else (o', p') :: writePart r o p

/-- `Ticketer` from `src/throttle.rs`: the global semaphore is modelled by
its available-permit count, the `Mutex<HashMap<..>>` by an association
list. -/
structure Ticketer : Type where
  global_permits : Nat
  state : List (OriginKey × TicketPartition)
  policy : TicketPolicy
  deriving DecidableEq, Repr

/-- `Ticketer::new` (`src/throttle.rs` lines 42-48): a fresh global
semaphore with `max_global` permits and an empty origin map. -/
def Ticketer.new (policy : TicketPolicy) : Ticketer :=
  ⟨policy.max_global, [], policy⟩

/-- `Ticketer::default_origin_details`: a fresh partition with
`max_per_site` permits and no lockout. -/
def Ticketer.default_origin_details (t : Ticketer) : TicketPartition :=
  ⟨t.policy.max_per_site, none⟩

/-- `Ticketer::mark_origin_locked` (`src/throttle.rs` lines 58-64): computes
`wait_till = now + rate_limit_wait_time`, then does
`lock.get_mut(origin).unwrap().locked_till = Some(wait_till)`. The `unwrap`
of `get_mut` panics when the origin has no partition yet; the panic is
modelled as `none`. -/
def Ticketer.mark_origin_locked (t : Ticketer) (o : OriginKey) (now : Nat) :
    Option Ticketer :=
  let wait_till := now + t.policy.rate_limit_wait_time
  match lookupPart t.state o with
  | none => none
  | some p =>
    some { t with state := writePart t.state o { p with locked_till := some wait_till } }

/-- The `entry(origin.clone()).or_insert(self.default_origin_details())`
idiom of `get_origin_locked_till` / `get_origin_lock` (and `ensure_exists`
in `src/throttle2.rs` lines 60-65): create the partition on first
reference. -/
def Ticketer.ensure_exists (t : Ticketer) (o : OriginKey) : Ticketer :=
  match lookupPart t.state o with
  | some _ => t
  | none => { t with state := writePart t.state o t.default_origin_details }

/-- `Ticketer::get_origin_locked_till` (`src/throttle.rs` lines 66-75):
or-inserts the partition, then returns `locked_till.unwrap_or(Instant::now())`. -/
def Ticketer.get_origin_locked_till (t : Ticketer) (o : OriginKey) (now : Nat) :
    Ticketer × Nat :=
  let t1 := t.ensure_exists o
  (t1, (((lookupPart t1.state o).bind TicketPartition.locked_till).getD now))

/-- `Ticketer::can_get_ticket` (`src/throttle.rs` lines 89-94): false when
the global semaphore has no permits, otherwise whether the (or-inserted)
origin partition has a permit. -/
def Ticketer.can_get_ticket (t : Ticketer) (o : OriginKey) : Ticketer × Bool :=
  if t.global_permits = 0 then (t, false)
  else
    let t1 := t.ensure_exists o
    (t1, decide (0 < ((lookupPart t1.state o).getD t.default_origin_details).availLocal))

/-- The policy construction of `ScrapeContext::from_args` (`src/context.rs`
lines 107-113): the parsed `global_threshold`, `per_origin_threshold` and
wait time are stored in the `TicketPolicy` directly; no check is applied to
any of them. -/
def policy_from_args (global_threshold per_origin_threshold wait_time : Nat) :
    TicketPolicy :=
  { max_global := global_threshold
    max_per_site := per_origin_threshold
    rate_limit_wait_time := wait_time }

/-- The completion-collection loop shared by `TitleData::download_to_directory`
(`src/title.rs` lines 148-150) and `ChapterInfo::download_to_directory`
(`src/chapter.rs` lines 162-164):
`while let Some(result) = tasks.next().await { result?; }`.
Input: the task results in completion order. Output: the `Result` the loop
produces and how many task completions were awaited before returning
(the remaining futures are dropped un-awaited). -/
def download_results_loop : List (Outcome Unit) → Outcome Unit × Nat
  | [] => (.ok (), 0)
  | r :: rest =>
    match r with
    | .err e => (.err e, 1)
    | .ok _ =>
      let p := download_results_loop rest
      (p.1, p.2 + 1)

/-- The first fatal error in completion order, or success: what the spec
says the orchestrator's return value is. -/
def firstFatal : List (Outcome Unit) → Outcome Unit
  | [] => .ok ()
  | .err e :: _ => .err e
  | .ok _ :: rest => firstFatal rest

/-- Number of results the loop consumes: all of them on success, otherwise
the successful ones before the first error plus the error itself. -/
def awaitedUpToFirstFatal : List (Outcome Unit) → Nat
  | [] => 0
  | .err _ :: _ => 1
  | .ok _ :: rest => awaitedUpToFirstFatal rest + 1

/-- Observable ticket/retry events of one `with_retry_for_origin` run
(`src/context.rs` lines 146-159). -/
inductive REvent : Type
  | acquireTicket : REvent
  | dropTicket : REvent
  | invoke (i : Nat) : REvent
  | backoffSleep : REvent
  | markOrigin : REvent
  deriving DecidableEq, Repr

/-- Events of the retry loop as driven by `with_retry_for_origin`: a
rate-limited attempt runs the `wait` closure, which calls
`mark_origin_locked`, drops the held ticket (`ticket.replace(None)`) and
re-acquires (`ticket.replace(Some(self.get_ticket(origin).await))`); a
transient attempt within budget sleeps the jittered backoff with no ticket
manipulation; success, permanent errors and budget exhaustion end the loop. -/
def retryOriginEventsGo {T : Type} (f : Nat → Outcome T) : Nat → Nat → List REvent
  | 0, _ => []
  | fuel + 1, count =>
    let c := count + 1
    REvent.invoke count ::
      (match f count with
       | .ok _ => []
       | .err (.RateLimitError _) =>
         .markOrigin :: .dropTicket :: .acquireTicket :: retryOriginEventsGo f fuel c
       | .err e =>
         if e.is_permanent then []
         else if c < 4 then .backoffSleep :: retryOriginEventsGo f fuel c
         else [])

/-- `ScrapeContext::with_retry_for_origin`: acquires a ticket up front, then
runs the retry loop. -/
def with_retry_for_origin_events {T : Type} (f : Nat → Outcome T) (fuel : Nat) :
    List REvent :=
  .acquireTicket :: retryOriginEventsGo f fuel 0

/-- Scans an event list with the current ticket-held flag and checks that
every `backoffSleep` happens while the ticket is held. -/
def sleepsWhileHeld : Bool → List REvent → Bool
  | _, [] => true
  | _, .acquireTicket :: r => sleepsWhileHeld true r
  | _, .dropTicket :: r => sleepsWhileHeld false r
  | h, .backoffSleep :: r => h && sleepsWhileHeld h r
  | h, .invoke _ :: r => sleepsWhileHeld h r
  | h, .markOrigin :: r => sleepsWhileHeld h r

/-- Claim-side check (from the spec's words for C5): every `backoffSleep`
happens while no ticket is held. -/
def sleepsWhileFree : Bool → List REvent → Bool
  | _, [] => true
  | _, .acquireTicket :: r => sleepsWhileFree true r
  | _, .dropTicket :: r => sleepsWhileFree false r
  | h, .backoffSleep :: r => !h && sleepsWhileFree h r
  | h, .invoke _ :: r => sleepsWhileFree h r
  | h, .markOrigin :: r => sleepsWhileFree h r

/-- Every ticket acquisition happens while no ticket is held (the previous
ticket was released before the re-acquisition). -/
def acquiresWhileFree : Bool → List REvent → Bool
  | _, [] => true
  | h, .acquireTicket :: r => !h && acquiresWhileFree true r
  | _, .dropTicket :: r => acquiresWhileFree false r
  | h, .backoffSleep :: r => acquiresWhileFree h r
  | h, .invoke _ :: r => acquiresWhileFree h r
  | h, .markOrigin :: r => acquiresWhileFree h r

/-- Program counter of one concurrent task interacting with the Ticketer,
with one location per await/lock point of `Ticketer::get_ticket`
(`src/throttle.rs` lines 96-115) and `Ticketer::mark_origin_locked`
(lines 58-64). -/
inductive TaskPc : Type
  | start : TaskPc
  | checkDeadline : TaskPc
  | sleeping (t : Nat) : TaskPc
  | acquireGlobal : TaskPc
  | hasTicket : TaskPc
  | released : TaskPc
  | markStart : TaskPc
  | markWrite (t : Nat) : TaskPc
  | markDone : TaskPc
  deriving DecidableEq, Repr

/-- A concurrent task: the origin it works on and where it is. -/
structure Task : Type where
  origin : OriginKey
  pc : TaskPc
  deriving DecidableEq, Repr

/-- State of the whole system: the clock, the Ticketer's shared state
(global permits and origin map) and every task. -/
structure SysState : Type where
  now : Nat
  global_permits : Nat
  parts : List (OriginKey × TicketPartition)
  tasks : List Task
  deriving DecidableEq, Repr

/-- A fresh origin partition as `default_origin_details` builds it. -/
def defaultPartition (policy : TicketPolicy) : TicketPartition :=
  ⟨policy.max_per_site, none⟩

/-- The partition the map semantically holds for `o`: the stored one, or the
default that any `or_insert` would create. -/
def partAt (parts : List (OriginKey × TicketPartition)) (policy : TicketPolicy)
    (o : OriginKey) : TicketPartition :=
  (lookupPart parts o).getD (defaultPartition policy)

/-- Materialize the entry for `o` (`entry(..).or_insert(default)`). -/
def ensurePart (parts : List (OriginKey × TicketPartition)) (policy : TicketPolicy)
    (o : OriginKey) : List (OriginKey × TicketPartition) :=
  match lookupPart parts o with
  | some _ => parts
  | none => writePart parts o (defaultPartition policy)

/-- One interleaved micro-step of the system. Each constructor corresponds
to one atomic action of the Rust code: `tick` advances the clock;
`acquireLocal` is `get_origin_lock(origin).acquire_owned().await` (which
or-inserts the partition, then takes a permit); `checkPass` / `checkFail`
are the `Instant::now() >= wait_till` test of `get_ticket` with
`wait_till = locked_till.unwrap_or(now)`, `checkFail` dropping the local
permit (`_local_permit = None`) before sleeping; `wake` is `sleep_until`
returning; `acquireGlobal` is `global_lock.acquire_owned().await`;
`releaseTicket` is the `Ticket` drop (both permits return); `markCompute`
is `mark_origin_locked` reading `Instant::now() + wait_time` before taking
the map mutex, and `markWriteStep` is the store of `Some(wait_till)` under
the mutex (which requires the entry to exist — `get_mut(..).unwrap()`). -/
inductive Step (policy : TicketPolicy) : SysState → SysState → Prop
  | tick (s : SysState) :
      Step policy s { s with now := s.now + 1 }
  | acquireLocal (s : SysState) (pre post : List Task) (o : OriginKey)
      (parts1 : List (OriginKey × TicketPartition)) (p1 : TicketPartition) :
      s.tasks = pre ++ ⟨o, .start⟩ :: post →
      parts1 = ensurePart s.parts policy o →
      lookupPart parts1 o = some p1 →
      0 < p1.availLocal →
      Step policy s { s with
        parts := writePart parts1 o { p1 with availLocal := p1.availLocal - 1 },
        tasks := pre ++ ⟨o, .checkDeadline⟩ :: post }
  | checkPass (s : SysState) (pre post : List Task) (o : OriginKey) :
      s.tasks = pre ++ ⟨o, .checkDeadline⟩ :: post →
      ((partAt s.parts policy o).locked_till.getD s.now) ≤ s.now →
      Step policy s { s with tasks := pre ++ ⟨o, .acquireGlobal⟩ :: post }
  | checkFail (s : SysState) (pre post : List Task) (o : OriginKey)
      (p : TicketPartition) (t : Nat) :
      s.tasks = pre ++ ⟨o, .checkDeadline⟩ :: post →
      lookupPart s.parts o = some p →
      p.locked_till = some t →
      s.now < t →
      Step policy s { s with
        parts := writePart s.parts o { p with availLocal := p.availLocal + 1 },
        tasks := pre ++ ⟨o, .sleeping t⟩ :: post }
  | wake (s : SysState) (pre post : List Task) (o : OriginKey) (t : Nat) :
      s.tasks = pre ++ ⟨o, .sleeping t⟩ :: post →
      t ≤ s.now →
      Step policy s { s with tasks := pre ++ ⟨o, .start⟩ :: post }
  | acquireGlobalStep (s : SysState) (pre post : List Task) (o : OriginKey) :
      s.tasks = pre ++ ⟨o, .acquireGlobal⟩ :: post →
      0 < s.global_permits →
      Step policy s { s with
        global_permits := s.global_permits - 1,
        tasks := pre ++ ⟨o, .hasTicket⟩ :: post }
  | releaseTicket (s : SysState) (pre post : List Task) (o : OriginKey)
      (p : TicketPartition) :
      s.tasks = pre ++ ⟨o, .hasTicket⟩ :: post →
      lookupPart s.parts o = some p →
      Step policy s { s with
        global_permits := s.global_permits + 1,
        parts := writePart s.parts o { p with availLocal := p.availLocal + 1 },
        tasks := pre ++ ⟨o, .released⟩ :: post }
  | markCompute (s : SysState) (pre post : List Task) (o : OriginKey) :
      s.tasks = pre ++ ⟨o, .markStart⟩ :: post →
      Step policy s { s with
        tasks := pre ++ ⟨o, .markWrite (s.now + policy.rate_limit_wait_time)⟩ :: post }
  | markWriteStep (s : SysState) (pre post : List Task) (o : OriginKey)
      (p : TicketPartition) (t : Nat) :
      s.tasks = pre ++ ⟨o, .markWrite t⟩ :: post →
      lookupPart s.parts o = some p →
      Step policy s { s with
        parts := writePart s.parts o { p with locked_till := some t },
        tasks := pre ++ ⟨o, .markDone⟩ :: post }

/-- States reachable from `s0` by interleaved micro-steps. -/
inductive Reach (policy : TicketPolicy) (s0 : SysState) : SysState → Prop
  | refl : Reach policy s0 s0
  | step {s s' : SysState} : Reach policy s0 s → Step policy s s' → Reach policy s0 s'

/-- Initial system state: a fresh `Ticketer::new(policy)` (full global
semaphore, empty map) at clock 0 with the given tasks. -/
def initSys (policy : TicketPolicy) (tasks : List Task) : SysState :=
  ⟨0, policy.max_global, [], tasks⟩

/-- A task that has not yet touched the ticketer: about to call
`get_ticket` or about to call `mark_origin_locked`. -/
def TaskPc.isInitial : TaskPc → Bool
  | .start => true
  | .markStart => true
  | _ => false

/-- Whether a task currently holds a permit of its origin's semaphore. -/
def TaskPc.holdsLocal : TaskPc → Bool
  | .checkDeadline => true
  | .acquireGlobal => true
  | .hasTicket => true
  | _ => false

/-- Whether a task currently holds an un-released `Ticket`. -/
def TaskPc.holdsTicket : TaskPc → Bool
  | .hasTicket => true
  | _ => false

/-- Number of tasks holding a local permit for origin `o`. -/
def localHolders (tasks : List Task) (o : OriginKey) : Nat :=
  tasks.countP fun tk => tk.origin = o && tk.pc.holdsLocal

/-- Number of tasks holding an un-released Ticket. -/
def ticketHolders (tasks : List Task) : Nat :=
  tasks.countP fun tk => tk.pc.holdsTicket

/-- Number of tasks holding an un-released Ticket for origin `o`. -/
def ticketHoldersFor (tasks : List Task) (o : OriginKey) : Nat :=
  tasks.countP fun tk => tk.origin = o && tk.pc.holdsTicket

/-- The resource-accounting invariant of the Ticketer: for every origin the
available local permits plus the permits held by tasks equal the per-site
ceiling, and the available global permits plus held Tickets equal the
global ceiling. -/
def Inv (policy : TicketPolicy) (s : SysState) : Prop :=
  (∀ o, (partAt s.parts policy o).availLocal + localHolders s.tasks o
      = policy.max_per_site)
  ∧ s.global_permits + ticketHolders s.tasks = policy.max_global

/-- An operation that is rate-limited on its first invocation and fails
transiently ever after. -/
def fRLmix : Nat → Outcome Unit := fun i =>
  if i = 0 then .err (.RateLimitError ⟨.status 429⟩)
  else .err (.ReqwestError ⟨.other⟩)

/-- An operation that fails transiently on every invocation. -/
def fTransAll : Nat → Outcome Unit := fun _ => .err (.ReqwestError ⟨.other⟩)

/-- An operation that fails transiently three times, then succeeds. -/
def fThreeThenOk : Nat → Outcome Nat := fun i =>
  if i < 3 then .err (.ReqwestError ⟨.other⟩) else .ok 7

/-- An operation that fails transiently once, then succeeds. -/
def fTransThenOk : Nat → Outcome Unit := fun i =>
  if i = 0 then .err (.ReqwestError ⟨.other⟩) else .ok ()

end Mdscrape

namespace Mdscrape

/-! ## Helper lemmas -/

theorem lookupPart_writePart (l : List (OriginKey × TicketPartition))
    (o o' : OriginKey) (p : TicketPartition) :
    lookupPart (writePart l o p) o' = if o = o' then some p else lookupPart l o' := by
  induction l with
  | nil => simp [writePart, lookupPart]
  | cons hd tl ih =>
    obtain ⟨ho, hp⟩ := hd
    by_cases h : ho = o
    · subst h
      simp [writePart, lookupPart]
      by_cases h' : ho = o' <;> simp [h']
    · simp only [writePart, if_neg h, lookupPart, ih]
      by_cases h1 : o = o' <;> by_cases h2 : ho = o'
      · exact absurd (h2.trans h1.symm) h
      · simp [h1, h2]
      · simp [h1, h2]
      · simp [h1, h2]

theorem partAt_writePart (l : List (OriginKey × TicketPartition))
    (policy : TicketPolicy) (o o' : OriginKey) (p : TicketPartition) :
    partAt (writePart l o p) policy o' = if o = o' then p else partAt l policy o' := by
  simp only [partAt, lookupPart_writePart]
  by_cases h : o = o' <;> simp [h]

theorem lookupPart_ensurePart_self (l : List (OriginKey × TicketPartition))
    (policy : TicketPolicy) (o : OriginKey) :
    lookupPart (ensurePart l policy o) o = some (partAt l policy o) := by
  unfold ensurePart partAt
  cases h : lookupPart l o <;> simp [h, lookupPart_writePart]

theorem partAt_ensurePart (l : List (OriginKey × TicketPartition))
    (policy : TicketPolicy) (o o' : OriginKey) :
    partAt (ensurePart l policy o) policy o' = partAt l policy o' := by
  unfold ensurePart
  cases h : lookupPart l o
  · simp only [partAt, lookupPart_writePart]
    by_cases ho : o = o'
    · subst ho
      simp [h]
    · simp [ho]
  · rfl

theorem withRetryGo_ok {T : Type} (f : Nat → Outcome T) (v : T)
    (fuel count w s : Nat) (hc : f count = .ok v) :
    withRetryGo f (fuel + 1) count w s = .done ⟨.ok v, count + 1, w, s⟩ := by
  simp [withRetryGo, hc]

theorem withRetryGo_transient_retry {T : Type} (f : Nat → Outcome T)
    (e : DownloadError) (fuel count w s : Nat) (hfc : f count = .err e)
    (hrl : e.isRateLimit = false) (hperm : e.is_permanent = false)
    (hlt : count + 1 < 4) :
    withRetryGo f (fuel + 1) count w s = withRetryGo f fuel (count + 1) w (s + 1) := by
  cases e <;> simp_all [withRetryGo, DownloadError.isRateLimit]

theorem withRetryGo_transient_exhaust {T : Type} (f : Nat → Outcome T)
    (e : DownloadError) (fuel count w s : Nat) (hfc : f count = .err e)
    (hrl : e.isRateLimit = false) (hperm : e.is_permanent = false)
    (hge : ¬ count + 1 < 4) :
    withRetryGo f (fuel + 1) count w s = .done ⟨.err e, count + 1, w, s⟩ := by
  cases e <;> simp_all [withRetryGo, DownloadError.isRateLimit]

theorem withRetryGo_rl_loop (e : ReqError) (fuel count w s : Nat) :
    withRetryGo (T := Unit) (fun _ => .err (.RateLimitError e)) fuel count w s
      = .fuelOut (count + fuel) (w + fuel) s := by
  induction fuel generalizing count w with
  | zero => simp [withRetryGo]
  | succ n ih =>
    simp only [withRetryGo, ih]
    congr 1 <;> omega

theorem withRetryGo_waits {T : Type} (f : Nat → Outcome T) :
    ∀ (fuel count w s : Nat) (r : RetryResult T),
      withRetryGo f fuel count w s = .done r →
      ∃ n, r.invocations = count + n ∧ r.waits = w + rlBetween f count n := by
  intro fuel
  induction fuel with
  | zero => intro count w s r h; simp [withRetryGo] at h
  | succ m ih =>
    intro count w s r h
    rw [withRetryGo] at h
    cases hfc : f count with
    | ok v =>
      rw [hfc] at h
      simp at h
      subst h
      exact ⟨1, rfl, by simp [rlBetween, hfc]⟩
    | err e =>
      cases e with
      | RateLimitError re =>
        rw [hfc] at h
        simp at h
        obtain ⟨n, hn, hw⟩ := ih (count + 1) (w + 1) s r h
        refine ⟨n + 1, by omega, ?_⟩
        simp only [rlBetween, hfc]
        omega
      | IOError =>
        rw [hfc] at h; simp [DownloadError.is_permanent] at h
        subst h
        exact ⟨1, rfl, by simp [rlBetween, hfc]⟩
      | ParseError =>
        rw [hfc] at h; simp [DownloadError.is_permanent] at h
        subst h
        exact ⟨1, rfl, by simp [rlBetween, hfc]⟩
      | NoSuchChapter id =>
        rw [hfc] at h; simp [DownloadError.is_permanent] at h
        subst h
        exact ⟨1, rfl, by simp [rlBetween, hfc]⟩
      | ChapterIsWrongLanguage id =>
        rw [hfc] at h; simp [DownloadError.is_permanent] at h
        subst h
        exact ⟨1, rfl, by simp [rlBetween, hfc]⟩
      | ReqwestError re =>
        rw [hfc] at h
        by_cases hp : (DownloadError.ReqwestError re).is_permanent = true
        · simp [hp] at h
          subst h
          exact ⟨1, rfl, by simp [rlBetween, hfc]⟩
        · simp [hp] at h
          by_cases hc : count + 1 < 4
          · simp [hc] at h
            obtain ⟨n, hn, hw⟩ := ih (count + 1) w (s + 1) r h
            refine ⟨n + 1, by omega, ?_⟩
            simp only [rlBetween, hfc]
            omega
          · simp [hc] at h
            subst h
            exact ⟨1, rfl, by simp [rlBetween, hfc]⟩

theorem transient_shape {T : Type} (x : Outcome T)
    (h : x.isTransientFailure = true) :
    ∃ e, x = .err e ∧ e.isRateLimit = false ∧ e.is_permanent = false := by
  cases x with
  | ok v => simp [Outcome.isTransientFailure] at h
  | err e =>
    simp only [Outcome.isTransientFailure, Bool.and_eq_true, Bool.not_eq_true'] at h
    exact ⟨e, rfl, h.1, h.2⟩

theorem retryOriginEvents_discipline {T : Type} (f : Nat → Outcome T) :
    ∀ (fuel count : Nat),
      sleepsWhileHeld true (retryOriginEventsGo f fuel count) = true
      ∧ acquiresWhileFree true (retryOriginEventsGo f fuel count) = true := by
  intro fuel
  induction fuel with
  | zero => intro count; exact ⟨rfl, rfl⟩
  | succ m ih =>
    intro count
    cases hfc : f count with
    | ok v => simp [retryOriginEventsGo, hfc, sleepsWhileHeld, acquiresWhileFree]
    | err e =>
      cases e with
      | RateLimitError re =>
        simp [retryOriginEventsGo, hfc, sleepsWhileHeld, acquiresWhileFree, ih]
      | IOError =>
        simp [retryOriginEventsGo, hfc, DownloadError.is_permanent,
          sleepsWhileHeld, acquiresWhileFree]
      | ParseError =>
        simp [retryOriginEventsGo, hfc, DownloadError.is_permanent,
          sleepsWhileHeld, acquiresWhileFree]
      | NoSuchChapter id =>
        simp [retryOriginEventsGo, hfc, DownloadError.is_permanent,
          sleepsWhileHeld, acquiresWhileFree]
      | ChapterIsWrongLanguage id =>
        simp [retryOriginEventsGo, hfc, DownloadError.is_permanent,
          sleepsWhileHeld, acquiresWhileFree]
      | ReqwestError re =>
        by_cases hp : (DownloadError.ReqwestError re).is_permanent = true
        · simp [retryOriginEventsGo, hfc, hp, sleepsWhileHeld, acquiresWhileFree]
        · by_cases hc : count + 1 < 4
          · simp [retryOriginEventsGo, hfc, hp, hc, sleepsWhileHeld,
              acquiresWhileFree, ih]
          · simp [retryOriginEventsGo, hfc, hp, hc, sleepsWhileHeld,
              acquiresWhileFree]

/-! ## Claim theorems -/

/-- Claim C1, amended. As stated the claim is false (see the
counterexample): rate-limited attempts do increment the shared `count`
and so do reduce the transient retries remaining. What holds is: an
operation that always returns a rate-limit error never terminates
`with_retry` — after any number `fuel` of iterations the loop is still
running, having invoked the operation `fuel` times and the `wait`
callback `fuel` times (once per rate-limited attempt) with no backoff
sleep and no fatal error; and in every terminating run the number of
`wait` invocations equals the number of rate-limited attempts. -/
theorem with_retry_rate_limit_amended :
    (∀ (e : ReqError) (fuel : Nat),
        with_retry (T := Unit) (fun _ => .err (.RateLimitError e)) fuel
          = .fuelOut fuel fuel 0)
    ∧ (∀ (T : Type) (f : Nat → Outcome T) (fuel : Nat) (r : RetryResult T),
        with_retry f fuel = .done r → r.waits = rlBetween f 0 r.invocations) := by
  constructor
  · intro e fuel
    have h := withRetryGo_rl_loop e fuel 0 0 0
    simpa [with_retry] using h
  · intro T f fuel r h
    obtain ⟨n, hn, hw⟩ := withRetryGo_waits f fuel 0 0 0 r h
    have hn' : n = r.invocations := by omega
    subst hn'
    omega

/-- Witness for C1's amended theorem at concrete inputs. -/
theorem with_retry_rate_limit_amended_witness :
    with_retry (T := Unit) (fun _ => .err (.RateLimitError ⟨.status 429⟩)) 3
        = .fuelOut 3 3 0
    ∧ (1 : Nat) = rlBetween fRLmix 0 4 :=
  ⟨with_retry_rate_limit_amended.1 ⟨.status 429⟩ 3,
    with_retry_rate_limit_amended.2 Unit fRLmix 10
      ⟨.err (.ReqwestError ⟨.other⟩), 4, 1, 2⟩ (by decide)⟩

/-- Counterexample to claim C1 as stated. An operation that is
rate-limited once and transient afterwards is returned as a fatal error
on its 4th invocation after only 2 backoff retries, while the same
all-transient operation gets 3 backoff retries: the rate-limited attempt
consumed one unit of the transient retry budget, contradicting the
claim that rate-limited attempts do not reduce the transient retries
remaining. -/
theorem with_retry_rate_limit_budget_counterexample :
    with_retry fRLmix 10 = .done ⟨.err (.ReqwestError ⟨.other⟩), 4, 1, 2⟩
    ∧ with_retry fTransAll 10 = .done ⟨.err (.ReqwestError ⟨.other⟩), 4, 0, 3⟩
    ∧ (2 : Nat) < 3 := by decide

/-- Claim C6, confirmed: an operation failing transiently on its first
three invocations and succeeding on the fourth makes `with_retry` return
the success value after exactly 4 invocations (with 3 backoff sleeps and
no wait-callback call); an operation failing transiently on every
invocation is invoked exactly 4 times and its 4th error is returned. -/
theorem with_retry_four_attempts {T : Type} (f : Nat → Outcome T) :
    (∀ v : T, (∀ i, i < 3 → (f i).isTransientFailure = true) → f 3 = .ok v →
      ∀ fuel, 4 ≤ fuel → with_retry f fuel = .done ⟨.ok v, 4, 0, 3⟩)
    ∧ ((∀ i, (f i).isTransientFailure = true) →
      ∀ fuel, 4 ≤ fuel →
        ∃ e, f 3 = .err e ∧ with_retry f fuel = .done ⟨.err e, 4, 0, 3⟩) := by
  constructor
  · intro v h3 h4 fuel hf
    obtain ⟨k, rfl⟩ : ∃ k, fuel = k + 4 := ⟨fuel - 4, by omega⟩
    obtain ⟨e0, he0, hrl0, hp0⟩ := transient_shape _ (h3 0 (by omega))
    obtain ⟨e1, he1, hrl1, hp1⟩ := transient_shape _ (h3 1 (by omega))
    obtain ⟨e2, he2, hrl2, hp2⟩ := transient_shape _ (h3 2 (by omega))
    show withRetryGo f (k + 4) 0 0 0 = _
    have s0 : withRetryGo f (k + 4) 0 0 0 = withRetryGo f (k + 3) 1 0 1 :=
      withRetryGo_transient_retry f e0 (k + 3) 0 0 0 he0 hrl0 hp0 (by omega)
    have s1 : withRetryGo f (k + 3) 1 0 1 = withRetryGo f (k + 2) 2 0 2 :=
      withRetryGo_transient_retry f e1 (k + 2) 1 0 1 he1 hrl1 hp1 (by omega)
    have s2 : withRetryGo f (k + 2) 2 0 2 = withRetryGo f (k + 1) 3 0 3 :=
      withRetryGo_transient_retry f e2 (k + 1) 2 0 2 he2 hrl2 hp2 (by omega)
    rw [s0, s1, s2]
    exact withRetryGo_ok f v k 3 0 3 h4
  · intro hAll fuel hf
    obtain ⟨k, rfl⟩ : ∃ k, fuel = k + 4 := ⟨fuel - 4, by omega⟩
    obtain ⟨e0, he0, hrl0, hp0⟩ := transient_shape _ (hAll 0)
    obtain ⟨e1, he1, hrl1, hp1⟩ := transient_shape _ (hAll 1)
    obtain ⟨e2, he2, hrl2, hp2⟩ := transient_shape _ (hAll 2)
    obtain ⟨e3, he3, hrl3, hp3⟩ := transient_shape _ (hAll 3)
    refine ⟨e3, he3, ?_⟩
    show withRetryGo f (k + 4) 0 0 0 = _
    have s0 : withRetryGo f (k + 4) 0 0 0 = withRetryGo f (k + 3) 1 0 1 :=
      withRetryGo_transient_retry f e0 (k + 3) 0 0 0 he0 hrl0 hp0 (by omega)
    have s1 : withRetryGo f (k + 3) 1 0 1 = withRetryGo f (k + 2) 2 0 2 :=
      withRetryGo_transient_retry f e1 (k + 2) 1 0 1 he1 hrl1 hp1 (by omega)
    have s2 : withRetryGo f (k + 2) 2 0 2 = withRetryGo f (k + 1) 3 0 3 :=
      withRetryGo_transient_retry f e2 (k + 1) 2 0 2 he2 hrl2 hp2 (by omega)
    rw [s0, s1, s2]
    exact withRetryGo_transient_exhaust f e3 k 3 0 3 he3 hrl3 hp3 (by omega)

/-- Witness for C6 at concrete operations. -/
theorem with_retry_four_attempts_witness :
    with_retry fThreeThenOk 4 = .done ⟨.ok 7, 4, 0, 3⟩
    ∧ ∃ e, fTransAll 3 = .err e
        ∧ with_retry fTransAll 4 = .done ⟨.err e, 4, 0, 3⟩ :=
  ⟨(with_retry_four_attempts fThreeThenOk).1 7
      (by intro i hi; interval_cases i <;> decide) (by decide) 4 (by decide),
    (with_retry_four_attempts fTransAll).2 (fun _ => rfl) 4 (by decide)⟩

/-- Claim C7, amended. As stated the claim is false (see the
counterexample): `is_permanent` classifies every HTTP status error as
permanent, not only the 4xx class — `reqwest::Error::is_status()` does
not inspect the class. What holds: an error is permanent exactly when it
is the storage error, the parse error, a not-found or wrong-language
condition, or a reqwest error that is a builder error or carries any
HTTP status; and the conversion from a reqwest error yields the
rate-limited (never-permanent) variant exactly for status 429. -/
theorem is_permanent_characterization :
    (∀ d : DownloadError, d.is_permanent = true ↔
        (d = .IOError ∨ d = .ParseError ∨ (∃ n, d = .NoSuchChapter n) ∨
          (∃ n, d = .ChapterIsWrongLanguage n) ∨
          (∃ e, d = .ReqwestError e ∧
            (e.is_builder = true ∨ ∃ c, e.statusCode = some c))))
    ∧ ∀ e : ReqError,
        DownloadError.fromReqwest e = .RateLimitError e ↔ e.statusCode = some 429 := by
  constructor
  · intro d
    cases d with
    | IOError => simp [DownloadError.is_permanent]
    | ParseError => simp [DownloadError.is_permanent]
    | NoSuchChapter n => simp [DownloadError.is_permanent]
    | ChapterIsWrongLanguage n => simp [DownloadError.is_permanent]
    | RateLimitError e => simp [DownloadError.is_permanent]
    | ReqwestError e =>
      obtain ⟨k⟩ := e
      cases k <;>
        simp [DownloadError.is_permanent, ReqError.is_builder, ReqError.is_status,
          ReqError.statusCode]
  · intro e
    obtain ⟨k⟩ := e
    cases k with
    | builder => simp [DownloadError.fromReqwest, ReqError.statusCode]
    | other => simp [DownloadError.fromReqwest, ReqError.statusCode]
    | status c =>
      by_cases hc : c = 429 <;>
        simp [DownloadError.fromReqwest, ReqError.statusCode,
          MANGADEX_RATE_LIMIT_CODE, hc]

/-- Counterexample to claim C7 as stated: a 500 (server-error class)
status error is classified permanent by the code, while the claim's
classification (4xx other than 429 only) says it is not. -/
theorem is_permanent_5xx_counterexample :
    DownloadError.is_permanent (.ReqwestError ⟨.status 500⟩) = true
    ∧ claimPermanentC7 (.ReqwestError ⟨.status 500⟩) = false := by decide

/-- Claim C8, amended. As stated the claim is false (see the
counterexample): on the first error the orchestrator loop returns at
once, dropping — not draining or awaiting — the remaining in-flight
tasks. What holds: the loop returns exactly the first fatal error in
completion order (or success when there is none), and the number of task
completions it awaits is the successful ones before the first error plus
that error itself. -/
theorem download_loop_first_error_amended (rs : List (Outcome Unit)) :
    download_results_loop rs = (firstFatal rs, awaitedUpToFirstFatal rs) := by
  induction rs with
  | nil => rfl
  | cons r rest ih =>
    cases r with
    | ok v => simp [download_results_loop, firstFatal, awaitedUpToFirstFatal, ih]
    | err e => rfl

/-- Counterexample to claim C8 as stated: with two started tasks whose
first completion is an error, the loop awaits only 1 of the 2 started
tasks before returning, so it does not drain and await all
already-started tasks; with two failures it surfaces only the first. -/
theorem download_loop_no_drain_counterexample :
    download_results_loop [.err .IOError, .ok ()] = (.err .IOError, 1)
    ∧ (1 : Nat) ≠ 2
    ∧ download_results_loop [.err .IOError, .err .ParseError] = (.err .IOError, 1) := by
  decide

/-- Claim C9, amended. As stated the claim is false (see the
counterexample): the policy construction performs no validation. What
holds: the thresholds parsed from the command line are stored in the
policy verbatim (zero included), and under a zero global or zero
per-origin ceiling a fresh ticketer's `can_get_ticket` is false for
every origin, i.e. acquisition can never succeed. -/
theorem policy_no_validation_amended (g p w : Nat) :
    (policy_from_args g p w).max_global = g
    ∧ (policy_from_args g p w).max_per_site = p
    ∧ (∀ o, ((Ticketer.new (policy_from_args 0 p w)).can_get_ticket o).2 = false)
    ∧ (∀ o, ((Ticketer.new (policy_from_args g 0 w)).can_get_ticket o).2 = false) := by
  refine ⟨rfl, rfl, fun o => rfl, fun o => ?_⟩
  by_cases hg : g = 0
  · subst hg; rfl
  · simp [Ticketer.can_get_ticket, Ticketer.new, policy_from_args, hg,
      Ticketer.ensure_exists, lookupPart, Ticketer.default_origin_details, writePart]

/-- Counterexample to claim C9 as stated: constructing the policy with
both ceilings 0 is not rejected — it produces a policy with
`max_global = 0` and `max_per_site = 0`, under which no ticket can ever
be acquired. -/
theorem policy_zero_ceiling_counterexample :
    (policy_from_args 0 0 150000).max_global = 0
    ∧ (policy_from_args 0 0 150000).max_per_site = 0
    ∧ ((Ticketer.new (policy_from_args 0 0 150000)).can_get_ticket 0).2 = false := by
  decide

/-- Claim C10, confirmed: `mark_origin_locked` on an origin whose
partition was never created panics (`get_mut(..).unwrap()` on a missing
entry, modelled as `none`): it does so on any ticketer whose map lacks
the origin, in particular on a fresh `Ticketer::new`; once the origin's
partition exists (any or-inserting operation such as `ensure_exists`,
`get_origin_lock` or `get_origin_locked_till` creates it),
`mark_origin_locked` succeeds. -/
theorem mark_origin_locked_unseen_panics :
    (∀ (t : Ticketer) (o : OriginKey) (now : Nat),
        lookupPart t.state o = none → t.mark_origin_locked o now = none)
    ∧ (∀ (policy : TicketPolicy) (o : OriginKey) (now : Nat),
        (Ticketer.new policy).mark_origin_locked o now = none)
    ∧ (∀ (t : Ticketer) (o : OriginKey) (now : Nat),
        ((t.ensure_exists o).mark_origin_locked o now).isSome = true) := by
  refine ⟨?_, ?_, ?_⟩
  · intro t o now h
    simp [Ticketer.mark_origin_locked, h]
  · intro policy o now
    simp [Ticketer.mark_origin_locked, Ticketer.new, lookupPart]
  · intro t o now
    unfold Ticketer.mark_origin_locked Ticketer.ensure_exists
    cases h : lookupPart t.state o with
    | some p => simp [h]
    | none => simp [h, lookupPart_writePart]

/-- Witness for C10 at a concrete fresh ticketer. -/
theorem mark_origin_locked_unseen_panics_witness :
    (Ticketer.new ⟨2, 1, 5⟩).mark_origin_locked 0 0 = none
    ∧ (((Ticketer.new ⟨2, 1, 5⟩).ensure_exists 0).mark_origin_locked 0 0).isSome = true :=
  ⟨mark_origin_locked_unseen_panics.1 (Ticketer.new ⟨2, 1, 5⟩) 0 0 rfl,
    mark_origin_locked_unseen_panics.2.2 (Ticketer.new ⟨2, 1, 5⟩) 0 0⟩

/-- Claim C5, amended. As stated the claim is false (see the
counterexample): a transient retry keeps the Ticket through the backoff
sleep. What holds about `with_retry_for_origin`: every backoff sleep
happens while the Ticket is held, and every Ticket acquisition — the
initial one and the re-acquisition inside the rate-limit `wait`
closure — happens while no Ticket is held, i.e. only the rate-limited
path releases the Ticket (before its blocking re-acquisition) and
re-acquires it fresh. -/
theorem with_retry_for_origin_ticket_amended {T : Type} (f : Nat → Outcome T)
    (fuel : Nat) :
    sleepsWhileHeld false (with_retry_for_origin_events f fuel) = true
    ∧ acquiresWhileFree false (with_retry_for_origin_events f fuel) = true := by
  have h := retryOriginEvents_discipline f fuel 0
  exact ⟨by simpa [with_retry_for_origin_events, sleepsWhileHeld] using h.1,
    by simpa [with_retry_for_origin_events, acquiresWhileFree] using h.2⟩

/-- Counterexample to claim C5 as stated: for an operation that fails
transiently once and then succeeds, the run's event trace contains a
backoff sleep, and the claim-side check "every backoff sleep happens
with no Ticket held" is false on it — the Ticket acquired before the
first attempt is still held during the sleep. -/
theorem with_retry_backoff_holds_ticket_counterexample :
    sleepsWhileFree false (with_retry_for_origin_events fTransThenOk 5) = false
    ∧ REvent.backoffSleep ∈ with_retry_for_origin_events fTransThenOk 5 := by
  decide

theorem localHolders_append_cons (pre post : List Task) (tk : Task) (o : OriginKey) :
    localHolders (pre ++ tk :: post) o
      = localHolders pre o + localHolders post o
        + (if tk.origin = o ∧ tk.pc.holdsLocal = true then 1 else 0) := by
  simp only [localHolders, List.countP_append, List.countP_cons, Bool.and_eq_true,
    decide_eq_true_eq]
  split_ifs with h <;> omega

theorem ticketHolders_append_cons (pre post : List Task) (tk : Task) :
    ticketHolders (pre ++ tk :: post)
      = ticketHolders pre + ticketHolders post
        + (if tk.pc.holdsTicket = true then 1 else 0) := by
  simp only [ticketHolders, List.countP_append, List.countP_cons]
  split_ifs with h <;> omega

theorem ticketHoldersFor_append_cons (pre post : List Task) (tk : Task) (o : OriginKey) :
    ticketHoldersFor (pre ++ tk :: post) o
      = ticketHoldersFor pre o + ticketHoldersFor post o
        + (if tk.origin = o ∧ tk.pc.holdsTicket = true then 1 else 0) := by
  simp only [ticketHoldersFor, List.countP_append, List.countP_cons, Bool.and_eq_true,
    decide_eq_true_eq]
  split_ifs with h <;> omega

theorem step_Inv {policy : TicketPolicy} {s s' : SysState}
    (h : Step policy s s') (hinv : Inv policy s) : Inv policy s' := by
  obtain ⟨hloc, hglob⟩ := hinv
  cases h with
  | tick => exact ⟨hloc, hglob⟩
  | acquireLocal pre post o parts1 p1 htasks hparts1 hlk hpos =>
    have hp1 : partAt s.parts policy o = p1 := by
      rw [hparts1, lookupPart_ensurePart_self] at hlk
      exact Option.some_inj.mp hlk
    refine ⟨fun o' => ?_, ?_⟩
    · have hl := hloc o'
      rw [htasks, localHolders_append_cons] at hl
      show (partAt (writePart parts1 o
          { p1 with availLocal := p1.availLocal - 1 }) policy o').availLocal
          + localHolders (pre ++ ⟨o, .checkDeadline⟩ :: post) o' = policy.max_per_site
      rw [localHolders_append_cons, partAt_writePart]
      have hens : partAt parts1 policy o' = partAt s.parts policy o' := by
        rw [hparts1]; exact partAt_ensurePart ..
      by_cases ho : o = o'
      · subst ho
        simp only [TaskPc.holdsLocal] at hl ⊢
        simp at hl ⊢
        rw [hp1] at hl
        omega
      · simp only [TaskPc.holdsLocal] at hl ⊢
        simp [ho, hens] at hl ⊢
        omega
    · have hg := hglob
      rw [htasks, ticketHolders_append_cons] at hg
      show s.global_permits + ticketHolders (pre ++ ⟨o, .checkDeadline⟩ :: post)
          = policy.max_global
      rw [ticketHolders_append_cons]
      simp only [TaskPc.holdsTicket] at hg ⊢
      simp at hg ⊢
      omega
  | checkPass pre post o htasks hdl =>
    refine ⟨fun o' => ?_, ?_⟩
    · have hl := hloc o'
      rw [htasks, localHolders_append_cons] at hl
      show (partAt s.parts policy o').availLocal
          + localHolders (pre ++ ⟨o, .acquireGlobal⟩ :: post) o' = policy.max_per_site
      rw [localHolders_append_cons]
      simp only [TaskPc.holdsLocal] at hl ⊢
      omega
    · have hg := hglob
      rw [htasks, ticketHolders_append_cons] at hg
      show s.global_permits + ticketHolders (pre ++ ⟨o, .acquireGlobal⟩ :: post)
          = policy.max_global
      rw [ticketHolders_append_cons]
      simp only [TaskPc.holdsTicket] at hg ⊢
      simp at hg ⊢
      omega
  | checkFail pre post o p t htasks hlk hlt hnow =>
    have hpat : partAt s.parts policy o = p := by
      simp [partAt, hlk]
    refine ⟨fun o' => ?_, ?_⟩
    · have hl := hloc o'
      rw [htasks, localHolders_append_cons] at hl
      show (partAt (writePart s.parts o
          { p with availLocal := p.availLocal + 1 }) policy o').availLocal
          + localHolders (pre ++ ⟨o, .sleeping t⟩ :: post) o' = policy.max_per_site
      rw [localHolders_append_cons, partAt_writePart]
      by_cases ho : o = o'
      · subst ho
        simp only [TaskPc.holdsLocal] at hl ⊢
        simp at hl ⊢
        rw [hpat] at hl
        omega
      · simp only [TaskPc.holdsLocal] at hl ⊢
        simp [ho] at hl ⊢
        omega
    · have hg := hglob
      rw [htasks, ticketHolders_append_cons] at hg
      show s.global_permits + ticketHolders (pre ++ ⟨o, .sleeping t⟩ :: post)
          = policy.max_global
      rw [ticketHolders_append_cons]
      simp only [TaskPc.holdsTicket] at hg ⊢
      simp at hg ⊢
      omega
  | wake pre post o t htasks hnow =>
    refine ⟨fun o' => ?_, ?_⟩
    · have hl := hloc o'
      rw [htasks, localHolders_append_cons] at hl
      show (partAt s.parts policy o').availLocal
          + localHolders (pre ++ ⟨o, .start⟩ :: post) o' = policy.max_per_site
      rw [localHolders_append_cons]
      simp only [TaskPc.holdsLocal] at hl ⊢
      omega
    · have hg := hglob
      rw [htasks, ticketHolders_append_cons] at hg
      show s.global_permits + ticketHolders (pre ++ ⟨o, .start⟩ :: post)
          = policy.max_global
      rw [ticketHolders_append_cons]
      simp only [TaskPc.holdsTicket] at hg ⊢
      simp at hg ⊢
      omega
  | acquireGlobalStep pre post o htasks hpos =>
    refine ⟨fun o' => ?_, ?_⟩
    · have hl := hloc o'
      rw [htasks, localHolders_append_cons] at hl
      show (partAt s.parts policy o').availLocal
          + localHolders (pre ++ ⟨o, .hasTicket⟩ :: post) o' = policy.max_per_site
      rw [localHolders_append_cons]
      simp only [TaskPc.holdsLocal] at hl ⊢
      omega
    · have hg := hglob
      rw [htasks, ticketHolders_append_cons] at hg
      show s.global_permits - 1 + ticketHolders (pre ++ ⟨o, .hasTicket⟩ :: post)
          = policy.max_global
      rw [ticketHolders_append_cons]
      simp only [TaskPc.holdsTicket] at hg ⊢
      simp at hg ⊢
      omega
  | releaseTicket pre post o p htasks hlk =>
    have hpat : partAt s.parts policy o = p := by
      simp [partAt, hlk]
    refine ⟨fun o' => ?_, ?_⟩
    · have hl := hloc o'
      rw [htasks, localHolders_append_cons] at hl
      show (partAt (writePart s.parts o
          { p with availLocal := p.availLocal + 1 }) policy o').availLocal
          + localHolders (pre ++ ⟨o, .released⟩ :: post) o' = policy.max_per_site
      rw [localHolders_append_cons, partAt_writePart]
      by_cases ho : o = o'
      · subst ho
        simp only [TaskPc.holdsLocal] at hl ⊢
        simp at hl ⊢
        rw [hpat] at hl
        omega
      · simp only [TaskPc.holdsLocal] at hl ⊢
        simp [ho] at hl ⊢
        omega
    · have hg := hglob
      rw [htasks, ticketHolders_append_cons] at hg
      show s.global_permits + 1 + ticketHolders (pre ++ ⟨o, .released⟩ :: post)
          = policy.max_global
      rw [ticketHolders_append_cons]
      simp only [TaskPc.holdsTicket] at hg ⊢
      simp at hg ⊢
      omega
  | markCompute pre post o htasks =>
    refine ⟨fun o' => ?_, ?_⟩
    · have hl := hloc o'
      rw [htasks, localHolders_append_cons] at hl
      show (partAt s.parts policy o').availLocal
          + localHolders (pre ++ ⟨o,
              .markWrite (s.now + policy.rate_limit_wait_time)⟩ :: post) o'
          = policy.max_per_site
      rw [localHolders_append_cons]
      simp only [TaskPc.holdsLocal] at hl ⊢
      omega
    · have hg := hglob
      rw [htasks, ticketHolders_append_cons] at hg
      show s.global_permits + ticketHolders (pre ++ ⟨o,
          .markWrite (s.now + policy.rate_limit_wait_time)⟩ :: post)
          = policy.max_global
      rw [ticketHolders_append_cons]
      simp only [TaskPc.holdsTicket] at hg ⊢
      simp at hg ⊢
      omega
  | markWriteStep pre post o p t htasks hlk =>
    have hpat : partAt s.parts policy o = p := by
      simp [partAt, hlk]
    refine ⟨fun o' => ?_, ?_⟩
    · have hl := hloc o'
      rw [htasks, localHolders_append_cons] at hl
      show (partAt (writePart s.parts o
          { p with locked_till := some t }) policy o').availLocal
          + localHolders (pre ++ ⟨o, .markDone⟩ :: post) o' = policy.max_per_site
      rw [localHolders_append_cons, partAt_writePart]
      by_cases ho : o = o'
      · subst ho
        simp only [TaskPc.holdsLocal] at hl ⊢
        simp at hl ⊢
        rw [hpat] at hl
        omega
      · simp only [TaskPc.holdsLocal] at hl ⊢
        simp [ho] at hl ⊢
        omega
    · have hg := hglob
      rw [htasks, ticketHolders_append_cons] at hg
      show s.global_permits + ticketHolders (pre ++ ⟨o, .markDone⟩ :: post)
          = policy.max_global
      rw [ticketHolders_append_cons]
      simp only [TaskPc.holdsTicket] at hg ⊢
      simp at hg ⊢
      omega

theorem initSys_Inv (policy : TicketPolicy) (tasks : List Task)
    (hinit : ∀ tk ∈ tasks, tk.pc.isInitial = true) :
    Inv policy (initSys policy tasks) := by
  constructor
  · intro o
    have hz : localHolders tasks o = 0 := by
      unfold localHolders
      rw [List.countP_eq_zero]
      intro tk htk
      have h := hinit tk htk
      cases hpc : tk.pc <;> simp_all [TaskPc.isInitial, TaskPc.holdsLocal]
    simp [initSys, partAt, lookupPart, defaultPartition, hz]
  · have hz : ticketHolders tasks = 0 := by
      unfold ticketHolders
      rw [List.countP_eq_zero]
      intro tk htk
      have h := hinit tk htk
      cases hpc : tk.pc <;> simp_all [TaskPc.isInitial, TaskPc.holdsTicket]
    simp [initSys, hz]

theorem reach_Inv {policy : TicketPolicy} {tasks : List Task} {s : SysState}
    (hinit : ∀ tk ∈ tasks, tk.pc.isInitial = true)
    (h : Reach policy (initSys policy tasks) s) : Inv policy s := by
  induction h with
  | refl => exact initSys_Inv policy tasks hinit
  | step h1 h2 ih => exact step_Inv h2 ih

/-- Claim C2, confirmed: in every state reachable by any interleaving of
`get_ticket` micro-steps, Ticket releases, lockout marks and clock ticks
from a fresh `Ticketer::new(policy)` with any number of tasks, the number
of simultaneously un-released Tickets never exceeds `max_global`, and the
number of un-released Tickets per origin never exceeds `max_per_site` —
in particular arbitrarily many launched tasks under a global ceiling of 4
yield at most 4 concurrently held Tickets. -/
theorem ticketer_ceilings (policy : TicketPolicy) (tasks : List Task) (s : SysState)
    (hinit : ∀ tk ∈ tasks, tk.pc.isInitial = true)
    (hreach : Reach policy (initSys policy tasks) s) :
    ticketHolders s.tasks ≤ policy.max_global
    ∧ ∀ o, ticketHoldersFor s.tasks o ≤ policy.max_per_site := by
  obtain ⟨hloc, hglob⟩ := reach_Inv hinit hreach
  constructor
  · omega
  · intro o
    have hmono : ticketHoldersFor s.tasks o ≤ localHolders s.tasks o := by
      apply List.countP_mono_left
      intro tk _ hpt
      simp only [Bool.and_eq_true, decide_eq_true_eq] at hpt ⊢
      refine ⟨hpt.1, ?_⟩
      have h2 := hpt.2
      cases hpc : tk.pc <;> simp_all [TaskPc.holdsTicket, TaskPc.holdsLocal]
    have := hloc o
    omega

/-- Witness for C2 at a concrete policy, task set and reachable state. -/
theorem ticketer_ceilings_witness :
    ticketHolders [⟨0, .start⟩] ≤ 4 ∧ ticketHoldersFor [⟨0, .start⟩] 0 ≤ 2 :=
  ⟨(ticketer_ceilings ⟨4, 2, 5⟩ [⟨0, .start⟩] (initSys ⟨4, 2, 5⟩ [⟨0, .start⟩])
      (by intro tk htk; rw [List.mem_singleton] at htk; subst htk; rfl) Reach.refl).1,
    (ticketer_ceilings ⟨4, 2, 5⟩ [⟨0, .start⟩] (initSys ⟨4, 2, 5⟩ [⟨0, .start⟩])
      (by intro tk htk; rw [List.mem_singleton] at htk; subst htk; rfl) Reach.refl).2 0⟩

theorem checkPass_requires_deadline (policy : TicketPolicy) (s s' : SysState)
    (o : OriginKey)
    (hs : s.tasks = [⟨o, .checkDeadline⟩])
    (hstep : Step policy s s')
    (hs' : s'.tasks = [⟨o, .acquireGlobal⟩]) :
    (partAt s.parts policy o).locked_till.getD s.now ≤ s.now := by
  cases hstep with
  | tick => rw [hs] at hs'; simp at hs'
  | acquireLocal pre post o2 parts1 p1 htasks hparts1 hlk hpos =>
    rw [hs] at htasks
    cases pre <;> simp_all
  | checkPass pre post o2 htasks hdl =>
    rw [hs] at htasks
    cases pre <;> simp_all
  | checkFail pre post o2 p t htasks hlk hlt hnow =>
    rw [hs] at htasks
    cases pre <;> simp_all
  | wake pre post o2 t htasks hnow =>
    rw [hs] at htasks
    cases pre <;> simp_all
  | acquireGlobalStep pre post o2 htasks hpos =>
    rw [hs] at htasks
    cases pre <;> simp_all
  | releaseTicket pre post o2 p htasks hlk =>
    rw [hs] at htasks
    cases pre <;> simp_all
  | markCompute pre post o2 htasks =>
    rw [hs] at htasks
    cases pre <;> simp_all
  | markWriteStep pre post o2 p t htasks hlk =>
    rw [hs] at htasks
    cases pre <;> simp_all

theorem get_ticket_progress (policy : TicketPolicy) (s : SysState) (o : OriginKey)
    (htasks : s.tasks = [⟨o, .start⟩])
    (hlocal : 0 < (partAt s.parts policy o).availLocal)
    (hglobal : 0 < s.global_permits)
    (hdl : (partAt s.parts policy o).locked_till.getD s.now ≤ s.now) :
    ∃ s', Reach policy s s' ∧ s'.tasks = [⟨o, .hasTicket⟩] ∧ s'.now = s.now := by
  have hlkE := lookupPart_ensurePart_self s.parts policy o
  have h1 : Step policy s { s with
      parts := writePart (ensurePart s.parts policy o) o
        { partAt s.parts policy o with
            availLocal := (partAt s.parts policy o).availLocal - 1 },
      tasks := [⟨o, .checkDeadline⟩] } :=
    Step.acquireLocal s [] [] o
      (ensurePart s.parts policy o) (partAt s.parts policy o)
      htasks rfl hlkE hlocal
  have hguard : (partAt (writePart (ensurePart s.parts policy o) o
      { partAt s.parts policy o with
          availLocal := (partAt s.parts policy o).availLocal - 1 }) policy o).locked_till.getD
        s.now ≤ s.now := by
    rw [partAt_writePart, if_pos rfl]
    exact hdl
  have h2 : Step policy
      ({ s with
        parts := writePart (ensurePart s.parts policy o) o
          { partAt s.parts policy o with
              availLocal := (partAt s.parts policy o).availLocal - 1 },
        tasks := [⟨o, .checkDeadline⟩] } : SysState)
      { s with
        parts := writePart (ensurePart s.parts policy o) o
          { partAt s.parts policy o with
              availLocal := (partAt s.parts policy o).availLocal - 1 },
        tasks := [⟨o, .acquireGlobal⟩] } :=
    Step.checkPass _ [] [] o rfl hguard
  have h3 : Step policy
      ({ s with
        parts := writePart (ensurePart s.parts policy o) o
          { partAt s.parts policy o with
              availLocal := (partAt s.parts policy o).availLocal - 1 },
        tasks := [⟨o, .acquireGlobal⟩] } : SysState)
      { s with
        global_permits := s.global_permits - 1,
        parts := writePart (ensurePart s.parts policy o) o
          { partAt s.parts policy o with
              availLocal := (partAt s.parts policy o).availLocal - 1 },
        tasks := [⟨o, .hasTicket⟩] } :=
    Step.acquireGlobalStep _ [] [] o rfl hglobal
  exact ⟨_, Reach.step (Reach.step (Reach.step Reach.refl h1) h2) h3, rfl, rfl⟩

/-- Claim C3, amended. As stated the claim is false (see the
counterexample): a `mark_origin_locked` that lands between `get_ticket`'s
deadline check and its return can leave `get_ticket` returning a Ticket
while the (new) lockout deadline lies in the future, because the code does
not re-check the deadline after the check succeeds. What holds: the
deadline check succeeds only at a moment when the deadline does not lie in
the future (first conjunct: any micro-step taking the checking task to the
global acquisition has the deadline at or before `now`), and when the
deadline has passed and local and global capacity are available, a task at
the start of `get_ticket` can proceed straight to holding a Ticket with no
waiting (second conjunct). -/
theorem get_ticket_lockout_amended :
    (∀ (policy : TicketPolicy) (s s' : SysState) (o : OriginKey),
        s.tasks = [⟨o, .checkDeadline⟩] → Step policy s s' →
        s'.tasks = [⟨o, .acquireGlobal⟩] →
        (partAt s.parts policy o).locked_till.getD s.now ≤ s.now)
    ∧ (∀ (policy : TicketPolicy) (s : SysState) (o : OriginKey),
        s.tasks = [⟨o, .start⟩] →
        0 < (partAt s.parts policy o).availLocal →
        0 < s.global_permits →
        (partAt s.parts policy o).locked_till.getD s.now ≤ s.now →
        ∃ s', Reach policy s s' ∧ s'.tasks = [⟨o, .hasTicket⟩] ∧ s'.now = s.now) :=
  ⟨checkPass_requires_deadline, get_ticket_progress⟩

/-- Witness for C3's amended theorem at concrete states. -/
theorem get_ticket_lockout_amended_witness :
    ((partAt [(0, ⟨0, none⟩)] ⟨1, 1, 5⟩ 0).locked_till.getD 0 ≤ 0)
    ∧ ∃ s', Reach ⟨1, 1, 5⟩ ⟨0, 1, [], [⟨0, .start⟩]⟩ s'
        ∧ s'.tasks = [⟨0, .hasTicket⟩] ∧ s'.now = 0 := by
  have hstep : Step ⟨1, 1, 5⟩
      ⟨0, 1, [(0, ⟨0, none⟩)], [⟨0, .checkDeadline⟩]⟩
      ⟨0, 1, [(0, ⟨0, none⟩)], [⟨0, .acquireGlobal⟩]⟩ :=
    Step.checkPass ⟨0, 1, [(0, ⟨0, none⟩)], [⟨0, .checkDeadline⟩]⟩ [] [] 0 rfl
      (by decide)
  constructor
  · exact get_ticket_lockout_amended.1 ⟨1, 1, 5⟩
      ⟨0, 1, [(0, ⟨0, none⟩)], [⟨0, .checkDeadline⟩]⟩
      ⟨0, 1, [(0, ⟨0, none⟩)], [⟨0, .acquireGlobal⟩]⟩ 0 rfl hstep rfl
  · exact get_ticket_lockout_amended.2 ⟨1, 1, 5⟩ ⟨0, 1, [], [⟨0, .start⟩]⟩ 0 rfl
      (by decide) (by decide) (by decide)

/-- Counterexample to claim C3 as stated: with ceilings 1/1 and lockout
duration 5, one task runs `get_ticket(0)` up to its global acquisition
while a second task runs `mark_origin_locked(0)`; interleaving the mark's
deadline store between the first task's deadline check and its global
acquisition reaches a state, at clock 0, in which the first task holds a
Ticket for origin 0 although origin 0's lockout deadline is 5 — in the
future. -/
theorem get_ticket_lockout_race_counterexample :
    Reach ⟨1, 1, 5⟩ (initSys ⟨1, 1, 5⟩ [⟨0, .start⟩, ⟨0, .markStart⟩])
        ⟨0, 0, [(0, ⟨0, some 5⟩)], [⟨0, .hasTicket⟩, ⟨0, .markDone⟩]⟩
    ∧ ticketHoldersFor [⟨0, .hasTicket⟩, ⟨0, .markDone⟩] 0 = 1
    ∧ (partAt [(0, ⟨0, some 5⟩)] ⟨1, 1, 5⟩ 0).locked_till = some 5
    ∧ (0 : Nat) < 5 := by
  refine ⟨?_, by decide, by decide, by decide⟩
  have h1 : Step ⟨1, 1, 5⟩ (initSys ⟨1, 1, 5⟩ [⟨0, .start⟩, ⟨0, .markStart⟩])
      ⟨0, 1, [(0, ⟨0, none⟩)], [⟨0, .checkDeadline⟩, ⟨0, .markStart⟩]⟩ :=
    Step.acquireLocal (initSys ⟨1, 1, 5⟩ [⟨0, .start⟩, ⟨0, .markStart⟩])
      [] [⟨0, .markStart⟩] 0 [(0, ⟨1, none⟩)] ⟨1, none⟩ rfl rfl rfl (by decide)
  have h2 : Step ⟨1, 1, 5⟩
      ⟨0, 1, [(0, ⟨0, none⟩)], [⟨0, .checkDeadline⟩, ⟨0, .markStart⟩]⟩
      ⟨0, 1, [(0, ⟨0, none⟩)], [⟨0, .acquireGlobal⟩, ⟨0, .markStart⟩]⟩ :=
    Step.checkPass ⟨0, 1, [(0, ⟨0, none⟩)], [⟨0, .checkDeadline⟩, ⟨0, .markStart⟩]⟩
      [] [⟨0, .markStart⟩] 0 rfl (by decide)
  have h3 : Step ⟨1, 1, 5⟩
      ⟨0, 1, [(0, ⟨0, none⟩)], [⟨0, .acquireGlobal⟩, ⟨0, .markStart⟩]⟩
      ⟨0, 1, [(0, ⟨0, none⟩)], [⟨0, .acquireGlobal⟩, ⟨0, .markWrite 5⟩]⟩ :=
    Step.markCompute ⟨0, 1, [(0, ⟨0, none⟩)], [⟨0, .acquireGlobal⟩, ⟨0, .markStart⟩]⟩
      [⟨0, .acquireGlobal⟩] [] 0 rfl
  have h4 : Step ⟨1, 1, 5⟩
      ⟨0, 1, [(0, ⟨0, none⟩)], [⟨0, .acquireGlobal⟩, ⟨0, .markWrite 5⟩]⟩
      ⟨0, 1, [(0, ⟨0, some 5⟩)], [⟨0, .acquireGlobal⟩, ⟨0, .markDone⟩]⟩ :=
    Step.markWriteStep
      ⟨0, 1, [(0, ⟨0, none⟩)], [⟨0, .acquireGlobal⟩, ⟨0, .markWrite 5⟩]⟩
      [⟨0, .acquireGlobal⟩] [] 0 ⟨0, none⟩ 5 rfl rfl
  have h5 : Step ⟨1, 1, 5⟩
      ⟨0, 1, [(0, ⟨0, some 5⟩)], [⟨0, .acquireGlobal⟩, ⟨0, .markDone⟩]⟩
      ⟨0, 0, [(0, ⟨0, some 5⟩)], [⟨0, .hasTicket⟩, ⟨0, .markDone⟩]⟩ :=
    Step.acquireGlobalStep
      ⟨0, 1, [(0, ⟨0, some 5⟩)], [⟨0, .acquireGlobal⟩, ⟨0, .markDone⟩]⟩
      [] [⟨0, .markDone⟩] 0 rfl (by decide)
  exact Reach.step (Reach.step (Reach.step (Reach.step (Reach.step Reach.refl h1) h2) h3) h4) h5

theorem mark_origin_locked_policy {t t' : Ticketer} {o : OriginKey} {now : Nat}
    (h : t.mark_origin_locked o now = some t') : t'.policy = t.policy := by
  unfold Ticketer.mark_origin_locked at h
  cases hlk : lookupPart t.state o with
  | none => rw [hlk] at h; simp at h
  | some p =>
    rw [hlk] at h
    simp at h
    rw [← h]

/-- Claim C4, amended. As stated the claim is false (see the
counterexample): `mark_origin_locked` computes `now + wait` before taking
the map mutex and then stores it unconditionally — it takes no maximum, so
a concurrent pair of calls can leave the earlier-computed (smaller)
deadline as the final value, moving the stored deadline earlier. What
holds: every successful call stores exactly `now + rate_limit_wait_time`
(first conjunct), so for sequential calls — where each call's read of the
clock and its store are not interleaved with another call — a later call
never shortens the deadline (second conjunct). -/
theorem mark_origin_locked_overwrite_amended :
    (∀ (t : Ticketer) (o : OriginKey) (now : Nat) (t' : Ticketer),
        t.mark_origin_locked o now = some t' →
        (lookupPart t'.state o).bind TicketPartition.locked_till
          = some (now + t.policy.rate_limit_wait_time))
    ∧ (∀ (t : Ticketer) (o : OriginKey) (n1 n2 : Nat) (t1 t2 : Ticketer),
        n1 ≤ n2 →
        t.mark_origin_locked o n1 = some t1 →
        t1.mark_origin_locked o n2 = some t2 →
        ∀ d1 d2,
          (lookupPart t1.state o).bind TicketPartition.locked_till = some d1 →
          (lookupPart t2.state o).bind TicketPartition.locked_till = some d2 →
          d1 ≤ d2) := by
  have hmain : ∀ (t : Ticketer) (o : OriginKey) (now : Nat) (t' : Ticketer),
      t.mark_origin_locked o now = some t' →
      (lookupPart t'.state o).bind TicketPartition.locked_till
        = some (now + t.policy.rate_limit_wait_time) := by
    intro t o now t' h
    unfold Ticketer.mark_origin_locked at h
    cases hlk : lookupPart t.state o with
    | none => rw [hlk] at h; simp at h
    | some p =>
      rw [hlk] at h
      simp at h
      rw [← h]
      simp [lookupPart_writePart]
  refine ⟨hmain, ?_⟩
  intro t o n1 n2 t1 t2 hle h1 h2 d1 d2 hd1 hd2
  have e1 := hmain t o n1 t1 h1
  have e2 := hmain t1 o n2 t2 h2
  rw [mark_origin_locked_policy h1] at e2
  rw [e1] at hd1
  rw [e2] at hd2
  have hd1' : d1 = n1 + t.policy.rate_limit_wait_time :=
    (Option.some_inj.mp hd1).symm
  have hd2' : d2 = n2 + t.policy.rate_limit_wait_time :=
    (Option.some_inj.mp hd2).symm
  omega

/-- Witness for C4's amended theorem: two sequential marks at clocks 0 and
1 with wait 5 store deadlines 5 then 6. -/
theorem mark_origin_locked_overwrite_amended_witness :
    ((lookupPart [(0, ⟨1, some 5⟩)] 0).bind TicketPartition.locked_till = some 5)
    ∧ (5 : Nat) ≤ 6 := by
  constructor
  · exact mark_origin_locked_overwrite_amended.1
      ((Ticketer.new ⟨1, 1, 5⟩).ensure_exists 0) 0 0
      ⟨1, [(0, ⟨1, some 5⟩)], ⟨1, 1, 5⟩⟩ (by decide)
  · exact mark_origin_locked_overwrite_amended.2
      ((Ticketer.new ⟨1, 1, 5⟩).ensure_exists 0) 0 0 1
      ⟨1, [(0, ⟨1, some 5⟩)], ⟨1, 1, 5⟩⟩ ⟨1, [(0, ⟨1, some 6⟩)], ⟨1, 1, 5⟩⟩
      (by decide) (by decide) (by decide) 5 6 (by decide) (by decide)

/-- Counterexample to claim C4 as stated: two concurrent
`mark_origin_locked(0)` calls, the first computing its deadline (5) at
clock 0 and the second computing its deadline (6) at clock 1; the second
writes first, then the first's write overwrites the stored deadline 6
with 5 — strictly earlier, and not the maximum of the previous deadline
and `now + lockoutDuration` (which is `max 6 6 = 6`). -/
theorem mark_origin_locked_shorten_counterexample :
    Reach ⟨1, 1, 5⟩
        (initSys ⟨1, 1, 5⟩ [⟨0, .start⟩, ⟨0, .markStart⟩, ⟨0, .markStart⟩])
        ⟨1, 1, [(0, ⟨0, some 6⟩)],
          [⟨0, .checkDeadline⟩, ⟨0, .markWrite 5⟩, ⟨0, .markDone⟩]⟩
    ∧ Step ⟨1, 1, 5⟩
        ⟨1, 1, [(0, ⟨0, some 6⟩)],
          [⟨0, .checkDeadline⟩, ⟨0, .markWrite 5⟩, ⟨0, .markDone⟩]⟩
        ⟨1, 1, [(0, ⟨0, some 5⟩)],
          [⟨0, .checkDeadline⟩, ⟨0, .markDone⟩, ⟨0, .markDone⟩]⟩
    ∧ (partAt [(0, ⟨0, some 6⟩)] ⟨1, 1, 5⟩ 0).locked_till = some 6
    ∧ (partAt [(0, ⟨0, some 5⟩)] ⟨1, 1, 5⟩ 0).locked_till = some 5
    ∧ ¬ (5 = max 6 (1 + 5)) := by
  refine ⟨?_, ?_, by decide, by decide, by decide⟩
  · have h1 : Step ⟨1, 1, 5⟩
        (initSys ⟨1, 1, 5⟩ [⟨0, .start⟩, ⟨0, .markStart⟩, ⟨0, .markStart⟩])
        ⟨0, 1, [(0, ⟨0, none⟩)],
          [⟨0, .checkDeadline⟩, ⟨0, .markStart⟩, ⟨0, .markStart⟩]⟩ :=
      Step.acquireLocal
        (initSys ⟨1, 1, 5⟩ [⟨0, .start⟩, ⟨0, .markStart⟩, ⟨0, .markStart⟩])
        [] [⟨0, .markStart⟩, ⟨0, .markStart⟩] 0 [(0, ⟨1, none⟩)] ⟨1, none⟩
        rfl rfl rfl (by decide)
    have h2 : Step ⟨1, 1, 5⟩
        ⟨0, 1, [(0, ⟨0, none⟩)],
          [⟨0, .checkDeadline⟩, ⟨0, .markStart⟩, ⟨0, .markStart⟩]⟩
        ⟨0, 1, [(0, ⟨0, none⟩)],
          [⟨0, .checkDeadline⟩, ⟨0, .markWrite 5⟩, ⟨0, .markStart⟩]⟩ :=
      Step.markCompute
        ⟨0, 1, [(0, ⟨0, none⟩)],
          [⟨0, .checkDeadline⟩, ⟨0, .markStart⟩, ⟨0, .markStart⟩]⟩
        [⟨0, .checkDeadline⟩] [⟨0, .markStart⟩] 0 rfl
    have h3 : Step ⟨1, 1, 5⟩
        ⟨0, 1, [(0, ⟨0, none⟩)],
          [⟨0, .checkDeadline⟩, ⟨0, .markWrite 5⟩, ⟨0, .markStart⟩]⟩
        ⟨1, 1, [(0, ⟨0, none⟩)],
          [⟨0, .checkDeadline⟩, ⟨0, .markWrite 5⟩, ⟨0, .markStart⟩]⟩ :=
      Step.tick ⟨0, 1, [(0, ⟨0, none⟩)],
        [⟨0, .checkDeadline⟩, ⟨0, .markWrite 5⟩, ⟨0, .markStart⟩]⟩
    have h4 : Step ⟨1, 1, 5⟩
        ⟨1, 1, [(0, ⟨0, none⟩)],
          [⟨0, .checkDeadline⟩, ⟨0, .markWrite 5⟩, ⟨0, .markStart⟩]⟩
        ⟨1, 1, [(0, ⟨0, none⟩)],
          [⟨0, .checkDeadline⟩, ⟨0, .markWrite 5⟩, ⟨0, .markWrite 6⟩]⟩ :=
      Step.markCompute
        ⟨1, 1, [(0, ⟨0, none⟩)],
          [⟨0, .checkDeadline⟩, ⟨0, .markWrite 5⟩, ⟨0, .markStart⟩]⟩
        [⟨0, .checkDeadline⟩, ⟨0, .markWrite 5⟩] [] 0 rfl
    have h5 : Step ⟨1, 1, 5⟩
        ⟨1, 1, [(0, ⟨0, none⟩)],
          [⟨0, .checkDeadline⟩, ⟨0, .markWrite 5⟩, ⟨0, .markWrite 6⟩]⟩
        ⟨1, 1, [(0, ⟨0, some 6⟩)],
          [⟨0, .checkDeadline⟩, ⟨0, .markWrite 5⟩, ⟨0, .markDone⟩]⟩ :=
      Step.markWriteStep
        ⟨1, 1, [(0, ⟨0, none⟩)],
          [⟨0, .checkDeadline⟩, ⟨0, .markWrite 5⟩, ⟨0, .markWrite 6⟩]⟩
        [⟨0, .checkDeadline⟩, ⟨0, .markWrite 5⟩] [] 0 ⟨0, none⟩ 6 rfl rfl
    exact Reach.step (Reach.step (Reach.step (Reach.step (Reach.step Reach.refl h1) h2) h3) h4) h5
  · exact Step.markWriteStep
      ⟨1, 1, [(0, ⟨0, some 6⟩)],
        [⟨0, .checkDeadline⟩, ⟨0, .markWrite 5⟩, ⟨0, .markDone⟩]⟩
      [⟨0, .checkDeadline⟩] [⟨0, .markDone⟩] 0 ⟨0, some 6⟩ 5 rfl rfl

end Mdscrape


